import Mathlib

/-!
Verification of the enrichment pipeline of src/scrape_tayara.py.

The pipeline (clean_and_enhance_data, lines 232-326) is embedded shallowly:
pandas columns become record fields, missing values become Option, the
images column is a sum of a raw comma-joined string and a pre-split list
whose cells are either Python strings (some s) or non-string junk (none).
Floating point arithmetic of the source is modelled over the rationals,
with Python round-half-to-even rounding made explicit.
-/

/-- Python str.lower, modelled on ASCII letters (the keyword tables and
governorate names of the source are ASCII-lower-case at the positions the
classifiers compare). -/
def lowerStr (s : String) : String := String.mk (s.toList.map Char.toLower)

/-- Whitespace as matched by the regex class backslash-s and str.strip,
modelled as space, tab, carriage return and newline. -/
def isSpaceChar (c : Char) : Bool := c.isWhitespace

/-- Remove a trailing whitespace run from a character list. -/
def trimBack : List Char → List Char
  | [] => []
  | c :: t =>
    match trimBack t with
    | [] => if isSpaceChar c then [] else [c]
    | r => c :: r

/-- Python str.strip on a character list. -/
def pyStripList (cs : List Char) : List Char :=
  trimBack (cs.dropWhile isSpaceChar)

/-- Python str.strip, used on the description column at line 247. -/
def pyStrip (s : String) : String := String.mk (pyStripList s.toList)

/-- One pass of re.sub replacing each maximal whitespace run by one space;
the flag records whether the previous character was whitespace. -/
def collapseAux : List Char → Bool → List Char
  | [], _ => []
  | c :: t, prevWs =>
    if isSpaceChar c then
      if prevWs then collapseAux t true else ' ' :: collapseAux t true
    else c :: collapseAux t false

/-- The address normalisation of line 248: collapse internal whitespace
runs to a single space, then strip. -/
def collapseWs (s : String) : String :=
  String.mk (pyStripList (collapseAux s.toList false))

/-- Does the first list occur as a leading segment of the second. -/
def leadsWith : List Char → List Char → Bool
  | [], _ => true
  | _ :: _, [] => false
  | a :: p, b :: s => a == b && leadsWith p s

/-- Does the needle occur as a contiguous segment of the haystack. -/
def occursIn (needle : List Char) : List Char → Bool
  | [] => leadsWith needle []
  | c :: t => leadsWith needle (c :: t) || occursIn needle t

/-- Python substring containment, the form "needle in hay". -/
def strContains (hay needle : String) : Bool := occursIn needle.toList hay.toList

/-- Python str.startswith. -/
def strStarts (s pre : String) : Bool := leadsWith pre.toList s.toList

/-- Python str.split on a comma; the accumulator holds the current field
reversed. -/
def splitCommaAux : List Char → List Char → List (List Char)
  | cur, [] => [cur.reverse]
  | cur, c :: t => if c = ',' then cur.reverse :: splitCommaAux [] t else splitCommaAux (c :: cur) t

/-- Python str.split(",") as used at line 253. -/
def splitComma (s : String) : List String := (splitCommaAux [] s.toList).map String.mk

/-- Lines 20-45: approximate coordinates of the 24 governorates, in the
insertion order of the source dictionary (longitude first). -/
def GOVERNORATE_COORDINATES : List (String × ℚ × ℚ) :=
  [("Tunis", 10.1815, 36.8065),
   ("Ariana", 10.1939, 36.8625),
   ("Ben Arous", 10.2233, 36.7535),
   ("Manouba", 10.0986, 36.8089),
   ("Nabeul", 10.6912, 36.4513),
   ("Bizerte", 9.8642, 37.2744),
   ("Zaghouan", 10.1428, 36.4028),
   ("Beja", 9.1844, 36.7256),
   ("Jendouba", 8.7550, 36.5012),
   ("Kef", 8.7047, 36.1675),
   ("Siliana", 9.3909, 36.0875),
   ("Sousse", 10.6412, 35.8245),
   ("Monastir", 10.7809, 35.7640),
   ("Mahdia", 11.0622, 35.5044),
   ("Kairouan", 10.0963, 35.6781),
   ("Kasserine", 8.8365, 35.1722),
   ("Sidi Bouzid", 9.4968, 35.0382),
   ("Sfax", 10.7600, 34.7400),
   ("Gabes", 10.0982, 33.8828),
   ("Medenine", 10.5050, 33.3450),
   ("Tataouine", 10.4507, 32.9227),
   ("Tozeur", 8.1335, 33.9185),
   ("Kebili", 8.9715, 33.7072),
   ("Gafsa", 8.7094, 34.4311)]

/-- The case-insensitive containment test of lines 53 and 71. -/
def govMatch (text : String) (g : String × ℚ × ℚ) : Bool :=
  strContains (lowerStr text) (lowerStr g.1)

/-- Lines 47-64: coordinates for a location text.  The two random.random()
draws are passed explicitly as r1 and r2, each in the interval from zero
inclusive to one exclusive. -/
def get_coordinates_from_location (location_text : String) (r1 r2 : ℚ) : ℚ × ℚ :=
  match GOVERNORATE_COORDINATES.find? (govMatch location_text) with
  | some (_, lng, lat) => (lng + (r1 - 1/2) * 0.05, lat + (r2 - 1/2) * 0.05)
  | none => (10.1815 + (r1 - 1/2) * 0.2, 36.8065 + (r2 - 1/2) * 0.2)

/-- Lines 66-73: first governorate name contained in the address. -/
def extract_governorate (address : String) : Option String :=
  (GOVERNORATE_COORDINATES.find? (govMatch address)).map (fun g => g.1)

/-- Line 198: the caller replaces a missing governorate by "Unknown". -/
def governorateOfAddress (address : String) : String :=
  (extract_governorate address).getD "Unknown"

/-- Exactly n leading decimal digits, returned with the remaining input. -/
def takeDigits : Nat → List Char → Option (List Char × List Char)
  | 0, cs => some ([], cs)
  | _ + 1, [] => none
  | n + 1, c :: t =>
    if c.isDigit then (takeDigits n t).map (fun p => (c :: p.1, p.2)) else none

/-- Does one of the unit alternatives of the area regex match here: the
square-meter sign, the literal m2, or a space followed by m. -/
def unitHere : List Char → Bool
  | 'm' :: '²' :: _ => true
  | 'm' :: '2' :: _ => true
  | ' ' :: 'm' :: _ => true
  | _ => false

/-- The regex tail after the digit group: a greedy whitespace star followed
by a unit alternative; success is invariant under how much whitespace the
star consumes, so the alternatives are checked after each spill length. -/
def wsThenUnit : List Char → Bool
  | [] => unitHere []
  | c :: t => unitHere (c :: t) || (isSpaceChar c && wsThenUnit t)

/-- Numeric value of a digit string, most significant digit first. -/
def digitsVal (ds : List Char) : Nat :=
  ds.foldl (fun a c => 10 * a + (c.toNat - 48)) 0

/-- One digit-group width of the area pattern at a fixed start position. -/
def tryLen (d : Nat) (cs : List Char) : Option Nat :=
  match takeDigits d cs with
  | some (ds, rest) => if wsThenUnit rest then some (digitsVal ds) else none
  | none => none

/-- The area pattern anchored at one position: the one-to-five digit
quantifier is greedy, trying five digits first. -/
def matchHere (cs : List Char) : Option Nat :=
  tryLen 5 cs <|> tryLen 4 cs <|> tryLen 3 cs <|> tryLen 2 cs <|> tryLen 1 cs

/-- re.search scans start positions from the left. -/
def reSearchArea : List Char → Option Nat
  | [] => matchHere []
  | c :: t => matchHere (c :: t) <|> reSearchArea t

/-- Lines 261-268: lower-case the text and search for a one-to-five digit
number followed by optional whitespace and a unit marker; a non-string
input yields no area. -/
def extract_area_m2 (text : Option String) : Option Nat :=
  match text with
  | none => none
  | some s => reSearchArea ((lowerStr s).toList)

/-- Python round applied to the exact fraction num/den (den positive):
nearest integer, halves to even.  The floor is num fdiv den and the
fractional part r/den is compared with one half by cross-multiplication. -/
def intRoundHalfEven (num den : ℤ) : ℤ :=
  let f := Int.fdiv num den
  let r := num - f * den
  if 2 * r < den then f
  else if den < 2 * r then f + 1
  else if f % 2 = 0 then f else f + 1

/-- Lines 284-297: keyword classifier for the property type. -/
def infer_property_type (description : Option String) : String :=
  match description with
  | none => "autre"
  | some d =>
    let desc := lowerStr d
    if strContains desc "terrain" then
      if strContains desc "agricole" then "terrain_agricole"
      else if strContains desc "industriel" then "terrain_industriel"
      else if strContains desc "commercial" then "terrain_commercial"
      else "terrain_construction"
    else "autre"

/-- Lines 302-314: keyword classifier for the zoning. -/
def infer_zoning (description : Option String) : String :=
  match description with
  | none => "unknown"
  | some d =>
    let desc := lowerStr d
    if ["villa", "appartement", "studio", "immeuble", "résidence"].any (fun w => strContains desc w) then
      "residential"
    else if ["dépôt", "industriel", "usine"].any (fun w => strContains desc w) then
      "industrial"
    else if strContains desc "commercial" || strContains desc "magasin" then
      "commercial"
    else if strContains desc "agricole" || strContains desc "ferme" then
      "agricultural"
    else "unknown"

/-- Decimal digit character. -/
def digChar (d : Nat) : Char :=
  match d with
  | 0 => '0' | 1 => '1' | 2 => '2' | 3 => '3' | 4 => '4'
  | 5 => '5' | 6 => '6' | 7 => '7' | 8 => '8' | _ => '9'

/-- Decimal digits of n, least significant first; the fuel argument keeps
the recursion structural and any fuel above n is enough. -/
def natDigsRevAux : Nat → Nat → List Char
  | 0, _ => []
  | fuel + 1, n => if n < 10 then [digChar n] else digChar (n % 10) :: natDigsRevAux fuel (n / 10)

/-- Decimal rendering of a natural number. -/
def natDigs (n : Nat) : List Char := (natDigsRevAux (n + 1) n).reverse

/-- A zero-padded three-digit group. -/
def padGroup3 (m : Nat) : List Char :=
  [digChar (m / 100 % 10), digChar (m / 10 % 10), digChar (m % 10)]

/-- The comma format specifier of a Python f-string, generalised over the
separator character: groups of three digits from the right, the leading
group unpadded.  Structural via fuel; fuel n + 1 is always enough. -/
def groupSepAux (sep : Char) : Nat → Nat → List Char
  | 0, _ => []
  | fuel + 1, n =>
    if n < 1000 then natDigs n
    else groupSepAux sep fuel (n / 1000) ++ sep :: padGroup3 (n % 1000)

/-- Digit grouping with a chosen separator. -/
def groupSep (sep : Char) (n : Nat) : List Char := groupSepAux sep (n + 1) n

/-- The replace(",", " ") of line 319, a plain ASCII space. -/
def replComma (c : Char) : Char := if c = ',' then ' ' else c

/-- Line 319: format the price with the comma specifier, replace each comma
by a plain space, and append the currency suffix. -/
def fmtPrice (p : Int) : String :=
  String.mk ((if p < 0 then '-' :: groupSep ',' p.natAbs else groupSep ',' p.toNat).map replComma)
    ++ " DT"

/-- Modelled from the spec: the spec describes originalPrice as the integer
price with a thousands separator character sep, suffixed with " DT"; the
claim names a non-breaking or thin space as sep, which the theorems for C7
compare against the code. -/
def specPriceFormat (sep : Char) (p : Int) : String :=
  String.mk (if p < 0 then '-' :: groupSep sep p.natAbs else groupSep sep p.toNat) ++ " DT"

/-- A raw record entering clean_and_enhance_data.  The images column is
either a raw comma-joined string or a list of cells, a cell being a Python
string (some) or non-string junk (none). -/
structure RawListing where
  description : Option String
  price : Option Int
  address : Option String
  images : String ⊕ List (Option String)
  sourceUrl : String
deriving DecidableEq, Repr

/-- The record after the area columns of lines 271-276 have been added. -/
structure MidListing where
  description : Option String
  price : Option Int
  address : Option String
  images : String ⊕ List (Option String)
  sourceUrl : String
  originalArea : Option Nat
  area : Option Int
  pricePerSqFt : Option ℚ
deriving DecidableEq, Repr

/-- The full output record of the pipeline. -/
structure EnrichedListing where
  description : Option String
  price : Option Int
  address : Option String
  images : String ⊕ List (Option String)
  sourceUrl : String
  originalArea : Option Nat
  area : Option Int
  pricePerSqFt : Option ℚ
  propertyType : String
  zoning : String
  originalPrice : String
  nearWater : Bool
  roadAccess : Bool
  utilities : Bool
deriving DecidableEq, Repr

/-- The deduplication key of line 245. -/
def rawKey (r : RawListing) : Option String × Option Int × String :=
  (r.description, r.price, r.sourceUrl)

/-- Keep the first occurrence of each key, given the keys already seen. -/
def firstOccBy {α κ : Type} [DecidableEq κ] (f : α → κ) : List α → List κ → List α
  | [], _ => []
  | a :: t, seen =>
    if f a ∈ seen then firstOccBy f t seen else a :: firstOccBy f t (f a :: seen)

/-- Line 245: drop_duplicates on the triple, first occurrence kept. -/
def dedupStage (l : List RawListing) : List RawListing := firstOccBy rawKey l []

/-- Line 246: the price filter; a missing price compares false. -/
def pricePass (r : RawListing) : Bool :=
  match r.price with
  | some p => decide (10 < p)
  | none => false

/-- Lines 247-248: strip the description, collapse and strip the address;
missing values stay missing. -/
def normalizeRec (r : RawListing) : RawListing :=
  { r with description := r.description.map pyStrip, address := r.address.map collapseWs }

/-- Line 249: dropna on description, price and address.  Only missing
values are dropped; empty strings pass. -/
def presentPass (r : RawListing) : Bool :=
  r.description.isSome && r.price.isSome && r.address.isSome

/-- Is the images field a Python string rather than a list. -/
def imgIsStr : String ⊕ List (Option String) → Bool
  | .inl _ => true
  | .inr _ => false

/-- Line 253 applied to one field: split a comma-joined string into string
cells; a field that is already a list is returned unchanged. -/
def splitIfStr : String ⊕ List (Option String) → String ⊕ List (Option String)
  | .inl s => .inr ((splitComma s).map some)
  | .inr cells => .inr cells

/-- The per-entry test of line 256: the entry is a string starting with
http. -/
def cellOk (c : Option String) : Bool :=
  match c with
  | some e => strStarts e "http"
  | none => false

/-- Line 256 applied to one field: keep only the entries that are strings
starting with http.  A string-valued field is iterated character by
character by the Python comprehension, each character being a one-letter
string. -/
def filterEntries : String ⊕ List (Option String) → String ⊕ List (Option String)
  | .inl s =>
    .inr (((s.toList.map (fun c => String.mk [c])).filter (fun e => strStarts e "http")).map some)
  | .inr cells => .inr (cells.filter cellOk)

/-- Lines 252-256: when the first surviving row's images is a string, every
row is split on commas and then filtered; if some other row is then not a
string the AttributeError aborts the protected block, leaving every images
field untouched and unfiltered.  When the first row's images is a list, no
split happens and the filter alone runs (iterating string fields by
characters). -/
def imagesStage (l : List RawListing) : List RawListing :=
  match l with
  | [] => []
  | first :: _ =>
    if imgIsStr first.images then
      if l.all (fun r => imgIsStr r.images) then
        l.map (fun r => { r with images := filterEntries (splitIfStr r.images) })
      else l
    else
      l.map (fun r => { r with images := filterEntries r.images })

/-- Lines 271-276: derive originalArea, area and pricePerSqFt.  The float
expression round(m2 * 10.7639) of line 272 is modelled exactly as the
rounding of the fraction m2 * 107639 / 10000, and round(price / area, 2)
of line 274 as the rounding of 100 * price / area, placed over 100. -/
def enrichArea (r : RawListing) : MidListing :=
  let oa := extract_area_m2 r.description
  let ar : Option Int := oa.map (fun m2 => intRoundHalfEven ((m2 : ℤ) * 107639) 10000)
  let pp : Option ℚ :=
    match r.price, ar with
    | some p, some a => if 0 < a then some (mkRat (intRoundHalfEven (100 * p) a) 100) else none
    | _, _ => none
  { description := r.description, price := r.price, address := r.address,
    images := r.images, sourceUrl := r.sourceUrl,
    originalArea := oa, area := ar, pricePerSqFt := pp }

/-- Line 279: keep values between 1 and 5000 inclusive, and keep nulls. -/
def ppsfPass (m : MidListing) : Bool :=
  match m.pricePerSqFt with
  | some q => decide (1 ≤ q) && decide (q ≤ 5000)
  | none => true

/-- Lines 299-324: the categorical, formatting and flag columns. -/
def finalEnrich (m : MidListing) : EnrichedListing :=
  { description := m.description, price := m.price, address := m.address,
    images := m.images, sourceUrl := m.sourceUrl,
    originalArea := m.originalArea, area := m.area, pricePerSqFt := m.pricePerSqFt,
    propertyType := infer_property_type m.description,
    zoning := infer_zoning m.description,
    originalPrice :=
      match m.price with
      | some p => fmtPrice p
      | none => "nan DT",
    nearWater :=
      match m.description with
      | some d => strContains (lowerStr d) "mer" || strContains (lowerStr d) "lac"
      | none => false,
    roadAccess := true,
    utilities := true }

/-- The cleaning prefix of the pipeline, lines 245-256. -/
def cleanedPart (b : List RawListing) : List RawListing :=
  imagesStage ((((dedupStage b).filter pricePass).map normalizeRec).filter presentPass)

/-- Lines 232-326: the whole enrichment pipeline. -/
def clean_and_enhance_data (results : List RawListing) : List EnrichedListing :=
  (((cleanedPart results).map enrichArea).filter ppsfPass).map finalEnrich

/-- Forget the derived columns, keeping the raw ones. -/
def toRaw (e : EnrichedListing) : RawListing :=
  { description := e.description, price := e.price, address := e.address,
    images := e.images, sourceUrl := e.sourceUrl }

/-- The deduplication key read off an output record. -/
def ekey (e : EnrichedListing) : Option String × Option Int × String :=
  (e.description, e.price, e.sourceUrl)

/-- The derived columns of an output record, bundled. -/
structure DerivFields where
  originalArea : Option Nat
  area : Option Int
  pricePerSqFt : Option ℚ
  propertyType : String
  zoning : String
  originalPrice : String
  nearWater : Bool
  roadAccess : Bool
  utilities : Bool
deriving DecidableEq, Repr

/-- The derived columns of an output record. -/
def derivTuple (e : EnrichedListing) : DerivFields :=
  { originalArea := e.originalArea, area := e.area, pricePerSqFt := e.pricePerSqFt,
    propertyType := e.propertyType, zoning := e.zoning, originalPrice := e.originalPrice,
    nearWater := e.nearWater, roadAccess := e.roadAccess, utilities := e.utilities }

/-- Every entry of an images field is a string starting with http. -/
def imagesOk : String ⊕ List (Option String) → Bool
  | .inl _ => false
  | .inr cells => cells.all cellOk

/-- Pairwise distinctness, decidably. -/
def allDistinct {α : Type} [DecidableEq α] : List α → Bool
  | [] => true
  | a :: t => !(decide (a ∈ t)) && allDistinct t

/-- A well-formed record for concrete test batches: present fields, a
pre-split one-entry image list. -/
def baseRec (d : String) (p : Int) (u : String) : RawListing :=
  { description := some d, price := some p, address := some "x",
    images := Sum.inr [some "http://img"], sourceUrl := u }

/-- Two records equal on sourceUrl but not on description. -/
def c1batch : List RawListing := [baseRec "a" 100 "u", baseRec "b" 100 "u"]

/-- A record whose description is whitespace only. -/
def c2wsRec : RawListing :=
  { description := some "   ", price := some 100, address := some "x",
    images := Sum.inr [some "http://img"], sourceUrl := "u" }

/-- Price and area chosen so that pricePerSqFt is exactly 5000. -/
def c4rec5000 : RawListing := baseRec "terrain 1 m2" 55000 "u"

/-- Price one higher, pushing pricePerSqFt just above 5000. -/
def c4rec5001 : RawListing := baseRec "terrain 1 m2" 55001 "u"

/-- A mid-stage record carrying pricePerSqFt exactly 5000. -/
def c4mid5000 : MidListing :=
  { description := some "t", price := some 55000, address := some "x",
    images := Sum.inr [], sourceUrl := "u",
    originalArea := some 1, area := some 11, pricePerSqFt := some 5000 }

/-- A mid-stage record carrying pricePerSqFt exactly 5000.01. -/
def c4mid500001 : MidListing :=
  { description := some "t", price := some 55000, address := some "x",
    images := Sum.inr [], sourceUrl := "u",
    originalArea := some 1, area := some 11, pricePerSqFt := some (mkRat 500001 100) }

/-- The worked example record of the spec. -/
def c5rec : RawListing := baseRec "Terrain agricole 500 m2 pas cher" 20000 "u"

/-- A record whose price needs a thousands separator. -/
def c7rec : RawListing := baseRec "t" 20000 "u"

/-- A mixed batch: the first surviving row's images is a list, the second
row's images is a comma-joined string of two URLs. -/
def c8mixA : List RawListing :=
  [{ description := some "a", price := some 100, address := some "x",
     images := Sum.inr [some "http://a"], sourceUrl := "u1" },
   { description := some "b", price := some 100, address := some "x",
     images := Sum.inl "http://b,http://c", sourceUrl := "u2" }]

/-- A mixed batch the other way: the first surviving row's images is a
string, a later row's is a list holding a non-URL entry. -/
def c8mixB : List RawListing :=
  [{ description := some "a", price := some 100, address := some "x",
     images := Sum.inl "x", sourceUrl := "u1" },
   { description := some "b", price := some 100, address := some "x",
     images := Sum.inr [some "junk"], sourceUrl := "u2" }]

/-- An all-list batch for the images witness. -/
def c8listBatch : List RawListing := [baseRec "a" 100 "u1", baseRec "b" 100 "u2"]

/-- Two records whose dedup triples differ only by trailing whitespace of
the description, so they collide after normalisation. -/
def c9batch : List RawListing := [baseRec "a" 100 "u", baseRec "a " 100 "u"]

/-- A batch whose output triples stay distinct. -/
def c9wbatch : List RawListing := [baseRec "a" 100 "u1", baseRec "b" 100 "u2"]

/-! ## String normalisation lemmas -/

theorem trimBack_idem (l : List Char) : trimBack (trimBack l) = trimBack l := by
  induction l with
  | nil => rfl
  | cons c t ih =>
    cases h : trimBack t with
    | nil =>
      by_cases hc : isSpaceChar c <;> simp [trimBack, h, hc]
    | cons x xs =>
      rw [h] at ih
      have e1 : trimBack (c :: t) = c :: x :: xs := by rw [trimBack, h]
      rw [e1, trimBack, ih]

theorem trimBack_cons_shape (c : Char) (t : List Char) :
    trimBack (c :: t) = [] ∨ ∃ r, trimBack (c :: t) = c :: r := by
  cases h : trimBack t with
  | nil =>
    by_cases hc : isSpaceChar c
    · left; simp [trimBack, h, hc]
    · right; exact ⟨[], by simp [trimBack, h, hc]⟩
  | cons x xs => right; exact ⟨x :: xs, by simp [trimBack, h]⟩

theorem head_false_of_dropWhile (p : Char → Bool) :
    ∀ (l : List Char) (c : Char) (t : List Char), l.dropWhile p = c :: t → p c = false := by
  intro l
  induction l with
  | nil => intro c t h; simp [List.dropWhile] at h
  | cons a l ih =>
    intro c t h
    rw [List.dropWhile_cons] at h
    by_cases ha : p a
    · rw [if_pos ha] at h; exact ih c t h
    · rw [if_neg ha] at h
      injection h with h1 _
      subst h1
      simpa using ha

theorem pyStripList_idem (cs : List Char) : pyStripList (pyStripList cs) = pyStripList cs := by
  unfold pyStripList
  cases hm : List.dropWhile isSpaceChar cs with
  | nil => simp [trimBack]
  | cons c t =>
    have hc : isSpaceChar c = false := head_false_of_dropWhile _ cs c t hm
    rcases trimBack_cons_shape c t with h | ⟨r, h⟩
    · rw [h]; simp [List.dropWhile, trimBack]
    · rw [h, List.dropWhile_cons, if_neg (by simp [hc])]
      have := trimBack_idem (c :: t)
      rw [h] at this
      exact this

theorem pyStrip_idem (s : String) : pyStrip (pyStrip s) = pyStrip s := by
  unfold pyStrip
  rw [show (String.mk (pyStripList s.toList)).toList = pyStripList s.toList from rfl,
    pyStripList_idem]

theorem collapseAux_idem (l : List Char) : ∀ b, collapseAux (collapseAux l b) b = collapseAux l b := by
  induction l with
  | nil => intro b; rfl
  | cons c t ih =>
    intro b
    by_cases hc : isSpaceChar c
    · cases b with
      | true => simpa [collapseAux, hc] using ih true
      | false =>
        have e1 : collapseAux (c :: t) false = ' ' :: collapseAux t true := by
          rw [collapseAux, if_pos hc]; exact rfl
        rw [e1, collapseAux, if_pos (show isSpaceChar ' ' = true by decide)]
        show ' ' :: collapseAux (collapseAux t true) true = ' ' :: collapseAux t true
        rw [ih true]
    · simp [collapseAux, hc, ih false]

theorem collapseAux_true_head (l : List Char) :
    ∀ c r, collapseAux l true = c :: r → isSpaceChar c = false := by
  induction l with
  | nil => intro c r h; simp [collapseAux] at h
  | cons a t ih =>
    intro c r h
    by_cases ha : isSpaceChar a
    · rw [collapseAux, if_pos ha, if_pos rfl] at h
      exact ih c r h
    · rw [collapseAux, if_neg ha] at h
      injection h with h1 _
      subst h1
      simpa using ha

theorem dropWhile_eq_self_of_head (p : Char → Bool) (l : List Char)
    (h : ∀ c t, l = c :: t → p c = false) : l.dropWhile p = l := by
  cases l with
  | nil => rfl
  | cons c t => rw [List.dropWhile_cons, if_neg (by simp [h c t rfl])]

theorem dropWhile_collapseAux (l : List Char) :
    (collapseAux l false).dropWhile isSpaceChar = collapseAux l true := by
  cases l with
  | nil => rfl
  | cons c t =>
    by_cases hc : isSpaceChar c
    · have e1 : collapseAux (c :: t) false = ' ' :: collapseAux t true := by
        rw [collapseAux, if_pos hc]; exact rfl
      have e2 : collapseAux (c :: t) true = collapseAux t true := by
        rw [collapseAux, if_pos hc]; exact rfl
      rw [e1, e2, List.dropWhile_cons, if_pos (show isSpaceChar ' ' = true by decide)]
      apply dropWhile_eq_self_of_head
      intro x r hx
      exact collapseAux_true_head t x r hx
    · have e1 : collapseAux (c :: t) false = c :: collapseAux t false := by
        rw [collapseAux, if_neg hc]
      have e2 : collapseAux (c :: t) true = c :: collapseAux t false := by
        rw [collapseAux, if_neg hc]
      rw [e1, e2, List.dropWhile_cons, if_neg (by simp [hc])]

theorem collapseAux_length (l : List Char) : ∀ b, (collapseAux l b).length ≤ l.length := by
  induction l with
  | nil => intro b; simp [collapseAux]
  | cons c t ih =>
    intro b
    by_cases hc : isSpaceChar c
    · cases b with
      | true =>
        have e : collapseAux (c :: t) true = collapseAux t true := by
          rw [collapseAux, if_pos hc]; exact rfl
        rw [e]
        exact le_trans (ih true) (by simp)
      | false =>
        have e : collapseAux (c :: t) false = ' ' :: collapseAux t true := by
          rw [collapseAux, if_pos hc]; exact rfl
        rw [e]
        simpa using ih true
    · have e : collapseAux (c :: t) b = c :: collapseAux t false := by
        rw [collapseAux, if_neg hc]
      rw [e]
      simpa using ih false

theorem collapseAux_trimBack_fix (u : List Char) :
    ∀ b, collapseAux u b = u → collapseAux (trimBack u) b = trimBack u := by
  induction u with
  | nil => intro b _; rfl
  | cons c t ih =>
    intro b hu
    by_cases hc : isSpaceChar c
    · cases b with
      | true =>
        exfalso
        have e : collapseAux (c :: t) true = collapseAux t true := by
          rw [collapseAux, if_pos hc]; exact rfl
        rw [e] at hu
        have hlen := collapseAux_length t true
        rw [hu] at hlen
        simp at hlen
      | false =>
        have e : collapseAux (c :: t) false = ' ' :: collapseAux t true := by
          rw [collapseAux, if_pos hc]; exact rfl
        rw [e] at hu
        injection hu with h1 h2
        have iht := ih true h2
        cases ht : trimBack t with
        | nil =>
          have e2 : trimBack (c :: t) = [] := by simp [trimBack, ht, hc]
          rw [e2]; rfl
        | cons x xs =>
          have e2 : trimBack (c :: t) = c :: x :: xs := by simp [trimBack, ht]
          rw [e2]
          have e3 : collapseAux (c :: x :: xs) false = ' ' :: collapseAux (x :: xs) true := by
            rw [collapseAux, if_pos hc]; exact rfl
          rw [e3]
          rw [ht] at iht
          rw [iht, h1]
    · have e : collapseAux (c :: t) b = c :: collapseAux t false := by
        rw [collapseAux, if_neg hc]
      rw [e] at hu
      injection hu with _ h2
      have iht := ih false h2
      cases ht : trimBack t with
      | nil =>
        have e2 : trimBack (c :: t) = [c] := by simp [trimBack, ht, hc]
        rw [e2, collapseAux, if_neg hc]
        rfl
      | cons x xs =>
        have e2 : trimBack (c :: t) = c :: x :: xs := by simp [trimBack, ht]
        rw [e2, collapseAux, if_neg hc]
        rw [ht] at iht
        rw [iht]

theorem collapseList_idem (cs : List Char) :
    pyStripList (collapseAux (pyStripList (collapseAux cs false)) false)
      = pyStripList (collapseAux cs false) := by
  unfold pyStripList
  rw [dropWhile_collapseAux, dropWhile_collapseAux]
  rw [collapseAux_trimBack_fix _ true (collapseAux_idem cs true), trimBack_idem]

theorem collapseWs_idem (s : String) : collapseWs (collapseWs s) = collapseWs s := by
  unfold collapseWs
  rw [show (String.mk (pyStripList (collapseAux s.toList false))).toList
        = pyStripList (collapseAux s.toList false) from rfl]
  rw [collapseList_idem]

/-! ## List helpers -/

theorem mapEqSelf {α : Type} (f : α → α) :
    ∀ l : List α, (∀ a ∈ l, f a = a) → l.map f = l := by
  intro l
  induction l with
  | nil => intro _; rfl
  | cons a t ih =>
    intro h
    simp only [List.map_cons]
    rw [h a (by simp), ih (fun x hx => h x (by simp [hx]))]

theorem filterAll {α : Type} (p : α → Bool) :
    ∀ l : List α, (∀ a ∈ l, p a = true) → l.filter p = l := by
  intro l
  induction l with
  | nil => intro _; rfl
  | cons a t ih =>
    intro h
    rw [List.filter_cons, if_pos (h a (by simp)), ih (fun x hx => h x (by simp [hx]))]

theorem mapCongrOn {α β : Type} (f g : α → β) :
    ∀ l : List α, (∀ a ∈ l, f a = g a) → l.map f = l.map g := by
  intro l
  induction l with
  | nil => intro _; rfl
  | cons a t ih =>
    intro h
    simp only [List.map_cons]
    rw [h a (by simp), ih (fun x hx => h x (by simp [hx]))]

theorem firstOccBy_sublist {α κ : Type} [DecidableEq κ] (f : α → κ) :
    ∀ (l : List α) (seen : List κ), List.Sublist (firstOccBy f l seen) l := by
  intro l
  induction l with
  | nil => intro seen; simp [firstOccBy]
  | cons a t ih =>
    intro seen
    rw [firstOccBy]
    by_cases h : f a ∈ seen
    · rw [if_pos h]
      exact (ih seen).trans (List.sublist_cons_self a t)
    · rw [if_neg h]
      exact List.Sublist.cons₂ a (ih (f a :: seen))

theorem allDistinct_sublist {α : Type} [DecidableEq α] {l₁ l₂ : List α}
    (hs : List.Sublist l₁ l₂) (h : allDistinct l₂ = true) : allDistinct l₁ = true := by
  induction hs with
  | slnil => rfl
  | cons a hs ih =>
    rw [allDistinct, Bool.and_eq_true] at h
    exact ih h.2
  | cons₂ a hs ih =>
    rw [allDistinct, Bool.and_eq_true] at h
    rw [allDistinct, Bool.and_eq_true]
    refine ⟨?_, ih h.2⟩
    simp only [Bool.not_eq_true', decide_eq_false_iff_not]
    intro hmem
    have h1 := h.1
    simp only [Bool.not_eq_true', decide_eq_false_iff_not] at h1
    exact h1 (hs.subset hmem)

theorem firstOccBy_distinct {α κ : Type} [DecidableEq κ] (f : α → κ) :
    ∀ (l : List α) (seen : List κ),
      allDistinct ((firstOccBy f l seen).map f) = true ∧
      ∀ a ∈ firstOccBy f l seen, f a ∉ seen := by
  intro l
  induction l with
  | nil => intro seen; exact ⟨rfl, by simp [firstOccBy]⟩
  | cons a t ih =>
    intro seen
    rw [firstOccBy]
    by_cases h : f a ∈ seen
    · rw [if_pos h]; exact ih seen
    · rw [if_neg h]
      obtain ⟨ih1, ih2⟩ := ih (f a :: seen)
      constructor
      · rw [List.map_cons, allDistinct, Bool.and_eq_true]
        refine ⟨?_, ih1⟩
        simp only [Bool.not_eq_true', decide_eq_false_iff_not]
        intro hmem
        obtain ⟨x, hx, hfx⟩ := List.mem_map.mp hmem
        have hx2 := ih2 x hx
        rw [hfx] at hx2
        exact hx2 (by simp)
      · intro x hx
        rcases List.mem_cons.mp hx with rfl | hx'
        · exact h
        · have hx2 := ih2 x hx'
          simp only [List.mem_cons, not_or] at hx2
          exact hx2.2

theorem firstOccBy_id {α κ : Type} [DecidableEq κ] (f : α → κ) :
    ∀ (l : List α) (seen : List κ), allDistinct (l.map f) = true →
      (∀ a ∈ l, f a ∉ seen) → firstOccBy f l seen = l := by
  intro l
  induction l with
  | nil => intro seen _ _; rfl
  | cons a t ih =>
    intro seen hd hseen
    rw [List.map_cons, allDistinct, Bool.and_eq_true] at hd
    rw [firstOccBy, if_neg (hseen a (by simp))]
    congr 1
    apply ih
    · exact hd.2
    · intro x hx
      simp only [List.mem_cons, not_or]
      refine ⟨?_, hseen x (by simp [hx])⟩
      have hna : f a ∉ t.map f := by simpa using hd.1
      intro heq
      exact hna (heq ▸ List.mem_map_of_mem f hx)

/-! ## Stage lemmas -/

theorem imagesStage_eq_map (l : List RawListing) :
    ∃ g : RawListing → RawListing,
      (∀ r, (g r).description = r.description ∧ (g r).price = r.price ∧
            (g r).address = r.address ∧ (g r).sourceUrl = r.sourceUrl) ∧
      imagesStage l = l.map g := by
  cases l with
  | nil => exact ⟨id, fun r => ⟨rfl, rfl, rfl, rfl⟩, rfl⟩
  | cons first rest =>
    by_cases h1 : imgIsStr first.images
    · by_cases h2 : (first :: rest).all (fun r => imgIsStr r.images)
      · refine ⟨fun r => { r with images := filterEntries (splitIfStr r.images) },
          fun r => ⟨rfl, rfl, rfl, rfl⟩, ?_⟩
        rw [imagesStage, if_pos h1, if_pos h2]
      · refine ⟨id, fun r => ⟨rfl, rfl, rfl, rfl⟩, ?_⟩
        rw [imagesStage, if_pos h1, if_neg h2, List.map_id]
    · refine ⟨fun r => { r with images := filterEntries r.images },
        fun r => ⟨rfl, rfl, rfl, rfl⟩, ?_⟩
      rw [imagesStage, if_neg h1]

theorem imagesStage_noSplit (l : List RawListing) (h : ∀ r ∈ l, imgIsStr r.images = false) :
    imagesStage l = l.map (fun r => { r with images := filterEntries r.images }) := by
  cases l with
  | nil => rfl
  | cons first rest =>
    rw [imagesStage, if_neg (by simp [h first (by simp)])]

theorem imagesStage_allSplit (l : List RawListing) (h : ∀ r ∈ l, imgIsStr r.images = true) :
    imagesStage l = l.map (fun r => { r with images := filterEntries (splitIfStr r.images) }) := by
  cases l with
  | nil => rfl
  | cons first rest =>
    rw [imagesStage, if_pos (h first (by simp)),
      if_pos (List.all_eq_true.mpr (fun r hr => h r hr))]

/-! ## Output membership facts -/

theorem mem_cleanedPart {c : RawListing} {b : List RawListing} (hc : c ∈ cleanedPart b) :
    (∃ d, c.description = some (pyStrip d)) ∧
    (∃ p, c.price = some p ∧ 10 < p) ∧
    (∃ a, c.address = some (collapseWs a)) := by
  unfold cleanedPart at hc
  obtain ⟨g, hg, hmap⟩ := imagesStage_eq_map
    ((((dedupStage b).filter pricePass).map normalizeRec).filter presentPass)
  rw [hmap] at hc
  obtain ⟨c1, hc1, rfl⟩ := List.mem_map.mp hc
  obtain ⟨hc2, hpres⟩ := List.mem_filter.mp hc1
  obtain ⟨r, hr, rfl⟩ := List.mem_map.mp hc2
  obtain ⟨hrd, hprice⟩ := List.mem_filter.mp hr
  obtain ⟨hgd, hgp, hga, hgu⟩ := hg (normalizeRec r)
  have hpd : (normalizeRec r).description = r.description.map pyStrip := rfl
  have hpa : (normalizeRec r).address = r.address.map collapseWs := rfl
  have hpp : (normalizeRec r).price = r.price := rfl
  unfold presentPass at hpres
  simp only [Bool.and_eq_true] at hpres
  refine ⟨?_, ?_, ?_⟩
  · rw [hgd, hpd]
    cases hd0 : r.description with
    | none =>
      exfalso
      have := hpres.1.1
      rw [hpd, hd0] at this
      simp at this
    | some d0 => exact ⟨d0, by simp⟩
  · rw [hgp, hpp]
    unfold pricePass at hprice
    cases hp0 : r.price with
    | none => rw [hp0] at hprice; simp at hprice
    | some p =>
      rw [hp0] at hprice
      exact ⟨p, rfl, of_decide_eq_true hprice⟩
  · rw [hga, hpa]
    cases ha0 : r.address with
    | none =>
      exfalso
      have := hpres.2
      rw [hpa, ha0] at this
      simp at this
    | some a0 => exact ⟨a0, by simp⟩

theorem pipeline_facts {e : EnrichedListing} {b : List RawListing}
    (h : e ∈ clean_and_enhance_data b) :
    toRaw e ∈ cleanedPart b ∧ ppsfPass (enrichArea (toRaw e)) = true ∧
      e = finalEnrich (enrichArea (toRaw e)) := by
  unfold clean_and_enhance_data at h
  obtain ⟨m, hm, rfl⟩ := List.mem_map.mp h
  obtain ⟨hm2, hpass⟩ := List.mem_filter.mp hm
  obtain ⟨c, hc, rfl⟩ := List.mem_map.mp hm2
  have htr : toRaw (finalEnrich (enrichArea c)) = c := rfl
  rw [htr]
  exact ⟨hc, hpass, rfl⟩

/-! ## Price formatting lemmas -/

theorem replComma_digChar (d : Nat) : replComma (digChar d) = digChar d := by
  unfold digChar
  split <;> decide

theorem natDigsRevAux_map (f : Nat) : ∀ n, (natDigsRevAux f n).map replComma = natDigsRevAux f n := by
  induction f with
  | zero => intro n; rfl
  | succ f ih =>
    intro n
    rw [natDigsRevAux]
    by_cases h : n < 10
    · rw [if_pos h]
      simp [replComma_digChar]
    · rw [if_neg h]
      simp only [List.map_cons, replComma_digChar, ih (n / 10)]

theorem natDigs_map (n : Nat) : (natDigs n).map replComma = natDigs n := by
  unfold natDigs
  rw [List.map_reverse, natDigsRevAux_map]

theorem padGroup3_map (m : Nat) : (padGroup3 m).map replComma = padGroup3 m := by
  simp [padGroup3, replComma_digChar]

theorem groupSepAux_map (f : Nat) :
    ∀ n, (groupSepAux ',' f n).map replComma = groupSepAux ' ' f n := by
  induction f with
  | zero => intro n; rfl
  | succ f ih =>
    intro n
    rw [groupSepAux, groupSepAux]
    by_cases h : n < 1000
    · rw [if_pos h, if_pos h, natDigs_map]
    · rw [if_neg h, if_neg h, List.map_append, ih (n / 1000), List.map_cons, padGroup3_map]
      rfl

theorem fmtPrice_eq_spec (p : Int) : fmtPrice p = specPriceFormat ' ' p := by
  unfold fmtPrice specPriceFormat groupSep
  by_cases h : p < 0
  · rw [if_pos h, if_pos h, List.map_cons, groupSepAux_map]
    rfl
  · rw [if_neg h, if_neg h, groupSepAux_map]

/-! ## Claims -/

/-- C3: for every input batch, every record retained in the pipeline output
has price strictly greater than 10; hence no record priced at or below 10
ever appears in the output. -/
theorem C3_price_invariant (b : List RawListing) (e : EnrichedListing)
    (h : e ∈ clean_and_enhance_data b) : ∃ p, e.price = some p ∧ 10 < p := by
  obtain ⟨hc, _, _⟩ := pipeline_facts h
  obtain ⟨_, ⟨p, hp, hgt⟩, _⟩ := mem_cleanedPart hc
  exact ⟨p, hp, hgt⟩

/-- C3 witness: the price invariant evaluated on a concrete batch. -/
theorem C3_price_invariant_witness :
    finalEnrich (enrichArea (baseRec "t" 100 "u")) ∈ clean_and_enhance_data [baseRec "t" 100 "u"] ∧
    ∃ p, (finalEnrich (enrichArea (baseRec "t" 100 "u"))).price = some p ∧ 10 < p :=
  ⟨by decide, C3_price_invariant [baseRec "t" 100 "u"]
    (finalEnrich (enrichArea (baseRec "t" 100 "u"))) (by decide)⟩

/-- C2 fails as stated: a record whose description is whitespace only is
normalised to the empty string by the strip of line 247, and dropna at
line 249 removes only missing values, so the record is retained with an
empty description instead of being dropped. -/
theorem C2_counterexample :
    (clean_and_enhance_data [c2wsRec]).map (fun e => e.description) = [some ""] ∧
    (clean_and_enhance_data [c2wsRec]).length = 1 :=
  ⟨by decide, by decide⟩

/-- C2 amended: every record with a missing description, price or address
is dropped; retained records carry a trimmed description and a
whitespace-collapsed address, which may be empty. -/
theorem C2_amended (b : List RawListing) (e : EnrichedListing)
    (h : e ∈ clean_and_enhance_data b) :
    (∃ d, e.description = some d ∧ pyStrip d = d) ∧
    (∃ p, e.price = some p) ∧
    (∃ a, e.address = some a ∧ collapseWs a = a) := by
  obtain ⟨hc, _, _⟩ := pipeline_facts h
  obtain ⟨⟨d, hd⟩, ⟨p, hp, _⟩, ⟨a, ha⟩⟩ := mem_cleanedPart hc
  exact ⟨⟨pyStrip d, hd, pyStrip_idem d⟩, ⟨p, hp⟩, ⟨collapseWs a, ha, collapseWs_idem a⟩⟩

/-- C2 witness: the amended statement evaluated on a concrete batch. -/
theorem C2_amended_witness :
    finalEnrich (enrichArea (baseRec "t" 100 "u")) ∈ clean_and_enhance_data [baseRec "t" 100 "u"] ∧
    ((∃ d, (finalEnrich (enrichArea (baseRec "t" 100 "u"))).description = some d ∧ pyStrip d = d) ∧
     (∃ p, (finalEnrich (enrichArea (baseRec "t" 100 "u"))).price = some p) ∧
     (∃ a, (finalEnrich (enrichArea (baseRec "t" 100 "u"))).address = some a ∧ collapseWs a = a)) :=
  ⟨by decide, C2_amended [baseRec "t" 100 "u"]
    (finalEnrich (enrichArea (baseRec "t" 100 "u"))) (by decide)⟩

/-- C5: on the worked example record the pipeline produces originalArea
500, area 5382, pricePerSqFt 3.72, propertyType terrain_agricole and
zoning agricultural. -/
theorem C5_worked_example :
    (clean_and_enhance_data [c5rec]).map
      (fun e => (e.originalArea, e.area, e.pricePerSqFt, e.propertyType, e.zoning)) =
      [(some 500, some 5382, some (mkRat 372 100), "terrain_agricole", "agricultural")] := by
  decide

/-- C10: a number longer than five digits immediately followed by a unit
marker is not rejected; the regex search matches the five-digit suffix of
the number, so the extracted area is its last five digits. -/
theorem C10_long_number :
    extract_area_m2 (some "123456 m2") = some 23456 ∧
    extract_area_m2 (some "abc 1234567 m2") = some 34567 :=
  ⟨by decide, by decide⟩

theorem all_filter_self {α : Type} (p : α → Bool) (l : List α) : (l.filter p).all p = true := by
  rw [List.all_eq_true]
  intro x hx
  exact (List.mem_filter.mp hx).2

theorem enrichArea_congr (r₁ r₂ : RawListing)
    (hd : r₁.description = r₂.description) (hp : r₁.price = r₂.price) :
    (enrichArea r₁).originalArea = (enrichArea r₂).originalArea ∧
    (enrichArea r₁).area = (enrichArea r₂).area ∧
    (enrichArea r₁).pricePerSqFt = (enrichArea r₂).pricePerSqFt := by
  unfold enrichArea
  rw [hd, hp]
  exact ⟨rfl, rfl, rfl⟩

theorem ppsfPass_congr (r₁ r₂ : RawListing)
    (hd : r₁.description = r₂.description) (hp : r₁.price = r₂.price) :
    ppsfPass (enrichArea r₁) = ppsfPass (enrichArea r₂) := by
  unfold ppsfPass
  rw [(enrichArea_congr r₁ r₂ hd hp).2.2]

theorem derivTuple_congr (r₁ r₂ : RawListing)
    (hd : r₁.description = r₂.description) (hp : r₁.price = r₂.price) :
    derivTuple (finalEnrich (enrichArea r₁)) = derivTuple (finalEnrich (enrichArea r₂)) := by
  unfold derivTuple finalEnrich enrichArea
  simp only [hd, hp]

theorem enrich_urls_sublist (Y : List RawListing) :
    List.Sublist
      ((((Y.map enrichArea).filter ppsfPass).map finalEnrich).map (fun e => e.sourceUrl))
      (Y.map (fun r => r.sourceUrl)) := by
  rw [List.map_map]
  have h1 := (@List.filter_sublist MidListing ppsfPass (Y.map enrichArea)).map
    (fun m : MidListing => m.sourceUrl)
  rw [List.map_map] at h1
  exact h1

theorem jitter_bound (c r w : ℚ) (h1 : 0 ≤ r) (h2 : r < 1) (hw : 0 ≤ w) :
    |c + (r - 1/2) * w - c| ≤ w / 2 := by
  have he : c + (r - 1/2) * w - c = (r - 1/2) * w := by ring
  rw [he, abs_mul, abs_of_nonneg hw]
  have hr : |r - 1/2| ≤ 1/2 := abs_le.mpr ⟨by linarith, by linarith⟩
  calc |r - 1/2| * w ≤ (1/2) * w := mul_le_mul_of_nonneg_right hr hw
  _ = w / 2 := by ring

/-- C4: whenever pricePerSqFt is present on an output record it lies in
the closed interval from 1 to 5000; a missing pricePerSqFt always passes
the quality filter; the boundary value 5000 passes while 5000.01 fails;
and end to end a record computing exactly 5000 is retained while one
computing just above the bound is dropped as a whole record. -/
theorem C4_ppsf_range :
    (∀ (b : List RawListing) (e : EnrichedListing), e ∈ clean_and_enhance_data b →
      ∀ q : ℚ, e.pricePerSqFt = some q → 1 ≤ q ∧ q ≤ 5000) ∧
    (∀ m : MidListing, m.pricePerSqFt = none → ppsfPass m = true) ∧
    ppsfPass c4mid5000 = true ∧
    ppsfPass c4mid500001 = false ∧
    (clean_and_enhance_data [c4rec5000]).map (fun e => e.pricePerSqFt) = [some 5000] ∧
    clean_and_enhance_data [c4rec5001] = [] := by
  refine ⟨?_, ?_, by decide, by decide, by decide, by decide⟩
  · intro b e he q hq
    obtain ⟨_, hpass, heq⟩ := pipeline_facts he
    rw [heq] at hq
    have hq2 : (enrichArea (toRaw e)).pricePerSqFt = some q := hq
    unfold ppsfPass at hpass
    rw [hq2] at hpass
    simp only [Bool.and_eq_true, decide_eq_true_eq] at hpass
    exact hpass
  · intro m hm
    unfold ppsfPass
    rw [hm]

/-- C4 witness: the range invariant evaluated on the boundary batch. -/
theorem C4_ppsf_range_witness :
    finalEnrich (enrichArea c4rec5000) ∈ clean_and_enhance_data [c4rec5000] ∧
    (finalEnrich (enrichArea c4rec5000)).pricePerSqFt = some 5000 ∧
    (1 ≤ (5000 : ℚ) ∧ (5000 : ℚ) ≤ 5000) :=
  ⟨by decide, by decide,
    C4_ppsf_range.1 [c4rec5000] (finalEnrich (enrichArea c4rec5000)) (by decide) 5000 (by decide)⟩

/-- C7 fails as stated: the replacement character of line 319 is the plain
ASCII space, so the thousands separator of originalPrice is a plain space;
no non-breaking or thin space occurs in the formatted value. -/
theorem C7_counterexample :
    (clean_and_enhance_data [c7rec]).map (fun e => e.originalPrice) = ["20 000 DT"] ∧
    ∀ c ∈ ("20 000 DT" : String).toList, c ≠ ' ' ∧ c ≠ ' ' ∧ c ≠ ' ' :=
  ⟨by decide, by decide⟩

/-- C7 amended: originalPrice is the integer price grouped in thousands
separated by a plain ASCII space, suffixed with the currency marker. -/
theorem C7_amended (b : List RawListing) (e : EnrichedListing)
    (h : e ∈ clean_and_enhance_data b) :
    ∃ p, e.price = some p ∧ 10 < p ∧ e.originalPrice = specPriceFormat ' ' p := by
  obtain ⟨hc, _, heq⟩ := pipeline_facts h
  obtain ⟨_, ⟨p, hp, hgt⟩, _⟩ := mem_cleanedPart hc
  refine ⟨p, hp, hgt, ?_⟩
  rw [heq]
  show (match (toRaw e).price with
    | some q => fmtPrice q
    | none => "nan DT") = specPriceFormat ' ' p
  rw [hp]
  exact fmtPrice_eq_spec p

/-- C7 witness: the amended format evaluated on a concrete batch. -/
theorem C7_amended_witness :
    finalEnrich (enrichArea c7rec) ∈ clean_and_enhance_data [c7rec] ∧
    ∃ p, (finalEnrich (enrichArea c7rec)).price = some p ∧ 10 < p ∧
      (finalEnrich (enrichArea c7rec)).originalPrice = specPriceFormat ' ' p :=
  ⟨by decide, C7_amended [c7rec] (finalEnrich (enrichArea c7rec)) (by decide)⟩

/-- C1 fails as stated: two records sharing a sourceUrl but differing in
description survive the triple-keyed dedup of line 245, so sourceUrl is
not unique across the output batch. -/
theorem C1_counterexample :
    (clean_and_enhance_data c1batch).map (fun e => e.sourceUrl) = ["u", "u"] ∧
    allDistinct ((clean_and_enhance_data c1batch).map (fun e => e.sourceUrl)) = false :=
  ⟨by decide, by decide⟩

/-- C1 amended: the dedup stage enforces uniqueness of the triple
(description, price, sourceUrl) only; sourceUrl itself is unique across
the output batch whenever it is unique across the input batch. -/
theorem C1_amended (b : List RawListing) :
    allDistinct ((dedupStage b).map rawKey) = true ∧
    (allDistinct (b.map (fun r => r.sourceUrl)) = true →
      allDistinct ((clean_and_enhance_data b).map (fun e => e.sourceUrl)) = true) := by
  constructor
  · exact (firstOccBy_distinct rawKey b []).1
  · intro hin
    obtain ⟨g, hg, hmap⟩ := imagesStage_eq_map
      ((((dedupStage b).filter pricePass).map normalizeRec).filter presentPass)
    have hd1 : List.Sublist ((dedupStage b).map (fun r => r.sourceUrl))
        (b.map (fun r => r.sourceUrl)) := (firstOccBy_sublist rawKey b []).map _
    have hd2 : List.Sublist (((dedupStage b).filter pricePass).map (fun r => r.sourceUrl))
        ((dedupStage b).map (fun r => r.sourceUrl)) :=
      (@List.filter_sublist RawListing pricePass (dedupStage b)).map _
    have hd3 : ((((dedupStage b).filter pricePass).map normalizeRec).map (fun r => r.sourceUrl))
        = (((dedupStage b).filter pricePass).map (fun r => r.sourceUrl)) := by
      rw [List.map_map]
      exact mapCongrOn _ _ _ (fun r _ => rfl)
    have hd4 : List.Sublist
        (((((dedupStage b).filter pricePass).map normalizeRec).filter presentPass).map
          (fun r => r.sourceUrl))
        ((((dedupStage b).filter pricePass).map normalizeRec).map (fun r => r.sourceUrl)) :=
      (@List.filter_sublist RawListing presentPass _).map _
    have hd5 : (((((dedupStage b).filter pricePass).map normalizeRec).filter presentPass).map g).map
          (fun r => r.sourceUrl)
        = ((((dedupStage b).filter pricePass).map normalizeRec).filter presentPass).map
          (fun r => r.sourceUrl) := by
      rw [List.map_map]
      exact mapCongrOn _ _ _ (fun r _ => (hg r).2.2.2)
    have hfull : List.Sublist ((clean_and_enhance_data b).map (fun e => e.sourceUrl))
        (b.map (fun r => r.sourceUrl)) := by
      unfold clean_and_enhance_data cleanedPart
      rw [hmap]
      refine List.Sublist.trans (enrich_urls_sublist _) ?_
      rw [hd5]
      refine List.Sublist.trans hd4 ?_
      rw [hd3]
      exact List.Sublist.trans hd2 hd1
    exact allDistinct_sublist hfull hin

/-- C1 witness: the amended statement evaluated on a concrete batch with
distinct sourceUrls. -/
theorem C1_amended_witness :
    allDistinct ((dedupStage c9wbatch).map rawKey) = true ∧
    allDistinct (c9wbatch.map (fun r => r.sourceUrl)) = true ∧
    allDistinct ((clean_and_enhance_data c9wbatch).map (fun e => e.sourceUrl)) = true :=
  ⟨(C1_amended c9wbatch).1, by decide, (C1_amended c9wbatch).2 (by decide)⟩

/-- C6: the governorate table has the fixed 24 entries; when some
governorate name occurs case-insensitively in the address, the first
matching entry in table order supplies the centroid and each coordinate
lies within 0.025 degrees of it; when no name occurs, the governorate is
reported Unknown and each coordinate lies within 0.1 degrees of the
default centroid (10.1815, 36.8065). -/
theorem C6_coordinates (loc : String) (r1 r2 : ℚ)
    (h1 : 0 ≤ r1) (h2 : r1 < 1) (h3 : 0 ≤ r2) (h4 : r2 < 1) :
    GOVERNORATE_COORDINATES.length = 24 ∧
    (∀ g, GOVERNORATE_COORDINATES.find? (govMatch loc) = some g →
      |(get_coordinates_from_location loc r1 r2).1 - g.2.1| ≤ 1/40 ∧
      |(get_coordinates_from_location loc r1 r2).2 - g.2.2| ≤ 1/40) ∧
    (GOVERNORATE_COORDINATES.find? (govMatch loc) = none →
      governorateOfAddress loc = "Unknown" ∧
      |(get_coordinates_from_location loc r1 r2).1 - 10.1815| ≤ 1/10 ∧
      |(get_coordinates_from_location loc r1 r2).2 - 36.8065| ≤ 1/10) := by
  refine ⟨rfl, ?_, ?_⟩
  · rintro ⟨name, lng, lat⟩ hf
    unfold get_coordinates_from_location
    rw [hf]
    constructor
    · show |lng + (r1 - 1/2) * 0.05 - lng| ≤ 1/40
      calc |lng + (r1 - 1/2) * 0.05 - lng| ≤ (0.05 : ℚ) / 2 :=
            jitter_bound lng r1 0.05 h1 h2 (by norm_num)
      _ = 1/40 := by norm_num
    · show |lat + (r2 - 1/2) * 0.05 - lat| ≤ 1/40
      calc |lat + (r2 - 1/2) * 0.05 - lat| ≤ (0.05 : ℚ) / 2 :=
            jitter_bound lat r2 0.05 h3 h4 (by norm_num)
      _ = 1/40 := by norm_num
  · intro hf
    refine ⟨?_, ?_, ?_⟩
    · unfold governorateOfAddress extract_governorate
      rw [hf]
      rfl
    · unfold get_coordinates_from_location
      rw [hf]
      show |(10.1815 : ℚ) + (r1 - 1/2) * 0.2 - 10.1815| ≤ 1/10
      calc |(10.1815 : ℚ) + (r1 - 1/2) * 0.2 - 10.1815| ≤ (0.2 : ℚ) / 2 :=
            jitter_bound 10.1815 r1 0.2 h1 h2 (by norm_num)
      _ = 1/10 := by norm_num
    · unfold get_coordinates_from_location
      rw [hf]
      show |(36.8065 : ℚ) + (r2 - 1/2) * 0.2 - 36.8065| ≤ 1/10
      calc |(36.8065 : ℚ) + (r2 - 1/2) * 0.2 - 36.8065| ≤ (0.2 : ℚ) / 2 :=
            jitter_bound 36.8065 r2 0.2 h3 h4 (by norm_num)
      _ = 1/10 := by norm_num

/-- C6 witness: evaluated at a matching and a non-matching address with
concrete random draws. -/
theorem C6_coordinates_witness :
    GOVERNORATE_COORDINATES.find? (govMatch "Ariana, proche de la mer")
      = some ("Ariana", 10.1939, 36.8625) ∧
    (|(get_coordinates_from_location "Ariana, proche de la mer" 0 (1/2)).1 - 10.1939| ≤ 1/40 ∧
     |(get_coordinates_from_location "Ariana, proche de la mer" 0 (1/2)).2 - 36.8625| ≤ 1/40) ∧
    GOVERNORATE_COORDINATES.find? (govMatch "Zone X") = none ∧
    (governorateOfAddress "Zone X" = "Unknown" ∧
     |(get_coordinates_from_location "Zone X" 0 (1/2)).1 - 10.1815| ≤ 1/10 ∧
     |(get_coordinates_from_location "Zone X" 0 (1/2)).2 - 36.8065| ≤ 1/10) :=
  ⟨rfl,
   (C6_coordinates "Ariana, proche de la mer" 0 (1/2) (by norm_num) (by norm_num) (by norm_num)
      (by norm_num)).2.1 ("Ariana", 10.1939, 36.8625) rfl,
   rfl,
   (C6_coordinates "Zone X" 0 (1/2) (by norm_num) (by norm_num) (by norm_num)
      (by norm_num)).2.2 rfl⟩

/-- C8 fails as stated: in a mixed batch whose first surviving row carries
a list images field, a later comma-joined string field is never split and
the character-wise filter empties it; in a mixed batch whose first row
carries a string field, the repair block aborts on the AttributeError and
a non-URL entry survives to the output. -/
theorem C8_counterexample :
    (clean_and_enhance_data c8mixA).map (fun e => e.images)
      = [Sum.inr [some "http://a"], Sum.inr []] ∧
    (clean_and_enhance_data c8mixB).map (fun e => e.images)
      = [Sum.inl "x", Sum.inr [some "junk"]] ∧
    ¬ (∀ e ∈ clean_and_enhance_data c8mixB, imagesOk e.images = true) :=
  ⟨by decide, by decide, by decide⟩

/-- C8 amended: when every images field of the batch is a pre-split list,
every output record's images entries are strings starting with http, with
non-conforming entries dropped from the list and not the record; the comma
split is decided by the shape of the first surviving row, an all-string
batch being split row by row and then filtered, an all-list batch being
only filtered. -/
theorem C8_amended :
    (∀ b : List RawListing, (∀ r ∈ b, imgIsStr r.images = false) →
      ∀ e ∈ clean_and_enhance_data b, imagesOk e.images = true) ∧
    (∀ l : List RawListing, (∀ r ∈ l, imgIsStr r.images = false) →
      imagesStage l = l.map (fun r => { r with images := filterEntries r.images })) ∧
    (∀ l : List RawListing, (∀ r ∈ l, imgIsStr r.images = true) →
      imagesStage l = l.map (fun r => { r with images := filterEntries (splitIfStr r.images) })) := by
  refine ⟨?_, imagesStage_noSplit, imagesStage_allSplit⟩
  intro b hb e he
  obtain ⟨hc, _, _⟩ := pipeline_facts he
  have himg : e.images = (toRaw e).images := rfl
  rw [himg]
  unfold cleanedPart at hc
  have hD4 : ∀ r ∈ (((dedupStage b).filter pricePass).map normalizeRec).filter presentPass,
      imgIsStr r.images = false := by
    intro r hr
    obtain ⟨hr2, _⟩ := List.mem_filter.mp hr
    obtain ⟨r0, hr0, hre⟩ := List.mem_map.mp hr2
    obtain ⟨hr1, _⟩ := List.mem_filter.mp hr0
    have hr0b : r0 ∈ b := (firstOccBy_sublist rawKey b []).subset hr1
    rw [← hre]
    exact hb r0 hr0b
  rw [imagesStage_noSplit _ hD4] at hc
  obtain ⟨c0, hc0, hceq⟩ := List.mem_map.mp hc
  rw [← hceq]
  show imagesOk (filterEntries c0.images) = true
  cases hci : c0.images with
  | inl s =>
    exfalso
    have hstr := hD4 c0 hc0
    rw [hci] at hstr
    simp [imgIsStr] at hstr
  | inr cells =>
    show imagesOk (Sum.inr (cells.filter cellOk)) = true
    show (cells.filter cellOk).all cellOk = true
    exact all_filter_self cellOk cells

/-- C8 witness: the all-list guarantee evaluated on a concrete batch. -/
theorem C8_amended_witness :
    (∀ r ∈ c8listBatch, imgIsStr r.images = false) ∧
    ∀ e ∈ clean_and_enhance_data c8listBatch, imagesOk e.images = true :=
  ⟨by decide, C8_amended.1 c8listBatch (by decide)⟩

/-- C9 fails as stated: dedup runs before the strip of line 247, so two
records whose triples differ only by trailing whitespace of the
description both survive the first run, become identical, and the second
run's dedup drops one of them, losing a record and its derived fields. -/
theorem C9_counterexample :
    (clean_and_enhance_data c9batch).length = 2 ∧
    (clean_and_enhance_data ((clean_and_enhance_data c9batch).map toRaw)).length = 1 ∧
    ¬ ((clean_and_enhance_data ((clean_and_enhance_data c9batch).map toRaw)).map derivTuple
        = (clean_and_enhance_data c9batch).map derivTuple) :=
  ⟨by decide, by decide, by decide⟩

/-- C9 amended: whenever the first run's output has pairwise-distinct
triples (description, price, sourceUrl), re-running the pipeline on the
output with derived fields dropped reproduces exactly the same derived
fields for every record.  In general the second run retains only the
first occurrence of each normalised triple. -/
theorem C9_amended (b : List RawListing)
    (h : allDistinct ((clean_and_enhance_data b).map ekey) = true) :
    (clean_and_enhance_data ((clean_and_enhance_data b).map toRaw)).map derivTuple
      = (clean_and_enhance_data b).map derivTuple := by
  have hfacts : ∀ e ∈ clean_and_enhance_data b,
      pricePass (toRaw e) = true ∧ presentPass (toRaw e) = true ∧
      normalizeRec (toRaw e) = toRaw e ∧ ppsfPass (enrichArea (toRaw e)) = true ∧
      e = finalEnrich (enrichArea (toRaw e)) := by
    intro e he
    obtain ⟨hc, hpass, heq⟩ := pipeline_facts he
    obtain ⟨⟨d, hd⟩, ⟨p, hp, hgt⟩, ⟨a, ha⟩⟩ := mem_cleanedPart hc
    refine ⟨?_, ?_, ?_, hpass, heq⟩
    · unfold pricePass
      rw [hp]
      simpa using hgt
    · unfold presentPass
      rw [hd, hp, ha]
      rfl
    · unfold normalizeRec
      rw [hd, ha]
      rw [show (some (pyStrip d)).map pyStrip = some (pyStrip d) by simp [pyStrip_idem]]
      rw [show (some (collapseWs a)).map collapseWs = some (collapseWs a) by simp [collapseWs_idem]]
      rw [← hd, ← ha]
  set out := clean_and_enhance_data b with hout
  set l := out.map toRaw with hl
  have hmem : ∀ x ∈ l, ∃ e ∈ out, x = toRaw e := by
    intro x hx
    obtain ⟨e, he, hxe⟩ := List.mem_map.mp hx
    exact ⟨e, he, hxe.symm⟩
  have h1 : dedupStage l = l := by
    unfold dedupStage
    apply firstOccBy_id
    · have e1 : l.map rawKey = out.map ekey := by
        rw [hl, List.map_map]
        exact mapCongrOn _ _ _ (fun e _ => rfl)
      rw [e1]
      exact h
    · intro a _
      simp
  have h2 : l.filter pricePass = l := by
    apply filterAll
    intro x hx
    obtain ⟨e, he, rfl⟩ := hmem x hx
    exact (hfacts e he).1
  have h3 : l.map normalizeRec = l := by
    apply mapEqSelf
    intro x hx
    obtain ⟨e, he, rfl⟩ := hmem x hx
    exact (hfacts e he).2.2.1
  have h4 : l.filter presentPass = l := by
    apply filterAll
    intro x hx
    obtain ⟨e, he, rfl⟩ := hmem x hx
    exact (hfacts e he).2.1
  obtain ⟨g, hg, hmap⟩ := imagesStage_eq_map l
  have h6 : ((l.map g).map enrichArea).filter ppsfPass = (l.map g).map enrichArea := by
    apply filterAll
    intro m hm
    obtain ⟨x, hx, hxm⟩ := List.mem_map.mp hm
    obtain ⟨x0, hx0, hx0m⟩ := List.mem_map.mp hx
    obtain ⟨e, he, rfl⟩ := hmem x0 hx0
    rw [← hxm, ← hx0m]
    rw [ppsfPass_congr (g (toRaw e)) (toRaw e) (hg (toRaw e)).1 (hg (toRaw e)).2.1]
    exact (hfacts e he).2.2.2.1
  show (clean_and_enhance_data l).map derivTuple = out.map derivTuple
  unfold clean_and_enhance_data cleanedPart
  rw [h1, h2, h3, h4, hmap, h6]
  simp only [List.map_map]
  rw [hl]
  simp only [List.map_map]
  apply mapCongrOn
  intro e he
  show derivTuple (finalEnrich (enrichArea (g (toRaw e)))) = derivTuple e
  rw [derivTuple_congr (g (toRaw e)) (toRaw e) (hg (toRaw e)).1 (hg (toRaw e)).2.1]
  rw [← (hfacts e he).2.2.2.2]

/-- C9 witness: the amended idempotence evaluated on a concrete batch with
distinct triples. -/
theorem C9_amended_witness :
    allDistinct ((clean_and_enhance_data c9wbatch).map ekey) = true ∧
    (clean_and_enhance_data ((clean_and_enhance_data c9wbatch).map toRaw)).map derivTuple
      = (clean_and_enhance_data c9wbatch).map derivTuple :=
  ⟨by decide, C9_amended c9wbatch (by decide)⟩
